import Mathlib

/-!
Shallow embedding of the signal codec / mapping engine
(`src/Flow1/can_vss_converter.py`) and of the frame ingestion buffer
(`src/can_interface.py`).

Python dictionaries are modelled as insertion-ordered association lists,
Python numbers (floats holding scale/offset/bounds and decode results) as
rationals, byte buffers as lists of naturals, and the `None` error value of
`extract_signal_from_data` as `Option.none`.
-/

namespace CanVss

/-- Signal kind enumeration, mirroring `CANSignalType` of the source. -/
inductive CANSignalType where
  | BOOLEAN
  | UINT8
  | UINT16
  | UINT32
  | INT8
  | INT16
  | INT32
  | FLOAT
deriving DecidableEq, Repr

/-- Signal layout record, mirroring the dataclass `CANSignalDefinition`. -/
structure CANSignalDefinition where
  name : String
  start_bit : Nat
  bit_length : Nat
  signal_type : CANSignalType
  scale : ℚ := 1
  offset : ℚ := 0
  min_val : Option ℚ := none
  max_val : Option ℚ := none
  unit : String := ""
  description : String := ""
deriving DecidableEq

/-- Message layout record, mirroring the dataclass `CANMessageDefinition`;
the `signals` dictionary becomes an insertion-ordered association list. -/
structure CANMessageDefinition where
  can_id : Nat
  name : String
  dlc : Nat
  signals : List (String × CANSignalDefinition)
  cycle_time : Nat := 0
  description : String := ""
deriving DecidableEq

/-- Incoming frame: the two fields of `can.Message` the converter reads. -/
structure CanMessage where
  arbitration_id : Nat
  data : List Nat
deriving DecidableEq

/-- Value produced by extraction: Python `bool` for the BOOLEAN kind,
a Python number (modelled as a rational) for every other kind. -/
inductive PyValue where
  | pyBool : Bool → PyValue
  | pyNum : ℚ → PyValue
deriving DecidableEq

/-- Little-endian accumulation loop of `extract_signal_from_data`
(`for i, byte in enumerate(relevant_bytes): value |= byte << (i * 8)`),
with the running index and accumulator made explicit. -/
def rawLEAux : List Nat → Nat → Nat → Nat
  | [], _, value => value
  | b :: rest, i, value => rawLEAux rest (i + 1) (value ||| (b <<< (i * 8)))

/-- Little-endian combination of a byte run, starting from index 0 and
accumulator 0 exactly as the source loop does. -/
def rawLE (bs : List Nat) : Nat := rawLEAux bs 0 0

/-- Raw field isolation of `extract_signal_from_data` (lines 257-276):
slice the covered byte run, fail when it is empty, combine little-endian,
then shift/mask unless the field exactly fills whole bytes from bit 0. -/
def rawField (data : List Nat) (sd : CANSignalDefinition) : Option Nat :=
  let start_byte := sd.start_bit / 8
  let start_bit_in_byte := sd.start_bit % 8
  let num_bytes := (sd.bit_length + 7) / 8
  let relevant_bytes := (data.drop start_byte).take num_bytes
  if relevant_bytes = [] then
    none
  else
    let value := rawLE relevant_bytes
    if 0 < start_bit_in_byte ∨ sd.bit_length < num_bytes * 8 then
      some ((value >>> start_bit_in_byte) &&& ((1 <<< sd.bit_length) - 1))
    else
      some value

/-- Bounds application of the source (lines 284-288 and twins): first
`result = max(result, min_val)` when a minimum is set, then
`result = min(result, max_val)` when a maximum is set. -/
def clampToBounds (sd : CANSignalDefinition) (result : ℚ) : ℚ :=
  let r1 :=
    match sd.min_val with
    | some m => max result m
    | none => result
  match sd.max_val with
  | some m => min r1 m
  | none => r1

/-- Signed reinterpretation of the source (lines 292-295): when
`value & (1 << (bit_length - 1))` is non-zero, subtract `1 << bit_length`. -/
def toSignedValue (value : Nat) (bl : Nat) : Int :=
  if value &&& (1 <<< (bl - 1)) ≠ 0 then
    (value : Int) - ((1 <<< bl : Nat) : Int)
  else
    (value : Int)

/-- Embedding of `extract_signal_from_data` (lines 245-318). The Python
function returns `None` exactly when the sliced byte run is empty (its
`except` clause is unreachable for well-typed inputs with a positive
`bit_length`, and a zero `bit_length` already yields an empty run). -/
def extract_signal_from_data (data : List Nat) (sd : CANSignalDefinition) :
    Option PyValue :=
  match rawField data sd with
  | none => none
  | some value =>
    match sd.signal_type with
    | .BOOLEAN => some (.pyBool (value != 0))
    | .UINT8 | .UINT16 | .UINT32 =>
      some (.pyNum (clampToBounds sd ((value : ℚ) * sd.scale + sd.offset)))
    | .INT8 | .INT16 | .INT32 =>
      some (.pyNum (clampToBounds sd
        ((toSignedValue value sd.bit_length : ℚ) * sd.scale + sd.offset)))
    | .FLOAT =>
      some (.pyNum (clampToBounds sd ((value : ℚ) * sd.scale + sd.offset)))

/-- Statistics dictionary `self.stats` of the converter. -/
structure Stats where
  messages_received : Nat := 0
  messages_converted : Nat := 0
  signals_sent : Nat := 0
  errors : Nat := 0
deriving DecidableEq

/-- Mutable state of `CANtoVSSConverter` relevant to conversion: the two
registries and the statistics counters. -/
structure ConverterState where
  message_definitions : List (Nat × CANMessageDefinition) := []
  can_to_vss_mapping : List (Nat × List (String × String)) := []
  stats : Stats := {}
deriving DecidableEq

/-- Python dictionary assignment `d[k] = v`: update the value in place when
the key exists (keeping its position), otherwise append at the end. -/
def dictInsert {β : Type} (d : List (String × β)) (k : String) (v : β) :
    List (String × β) :=
  match d with
  | [] => [(k, v)]
  | (k1, v1) :: rest =>
    if k1 = k then (k, v) :: rest else (k1, v1) :: dictInsert rest k v

/-- Signal loop of `convert_can_message` (lines 348-356): extract each
signal, skip it when extraction fails or no destination mapping exists,
otherwise record `destination -> value`. -/
def processSignals (data : List Nat) (vssMap : List (String × String)) :
    List (String × CANSignalDefinition) → List (String × PyValue) →
    List (String × PyValue)
  | [], acc => acc
  | (signal_name, sd) :: rest, acc =>
    match extract_signal_from_data data sd with
    | none => processSignals data vssMap rest acc
    | some value =>
      match vssMap.lookup signal_name with
      | none => processSignals data vssMap rest acc
      | some vss_path => processSignals data vssMap rest (dictInsert acc vss_path value)

/-- Embedding of `convert_can_message` (lines 320-366) on the fault-free
path: increment the received counter, return an empty map when either
registry lacks the frame id, otherwise run the signal loop and update the
converted / signals-sent counters when the result is non-empty. -/
def convert_can_message (st : ConverterState) (msg : CanMessage) :
    List (String × PyValue) × ConverterState :=
  let stats1 := { st.stats with messages_received := st.stats.messages_received + 1 }
  match st.message_definitions.lookup msg.arbitration_id with
  | none => ([], { st with stats := stats1 })
  | some msg_def =>
    match st.can_to_vss_mapping.lookup msg.arbitration_id with
    | none => ([], { st with stats := stats1 })
    | some vssMap =>
      let vss_signals := processSignals msg.data vssMap msg_def.signals []
      let stats2 :=
        if vss_signals ≠ [] then
          { stats1 with
              messages_converted := stats1.messages_converted + 1,
              signals_sent := stats1.signals_sent + vss_signals.length }
        else stats1
      (vss_signals, { st with stats := stats2 })

/-- Models `convert_can_message` when an unanticipated exception is raised
inside its `try` block after the first `k` iterations of the signal loop
have completed (both registries holding the frame id, so the loop is
reached). The `except Exception` handler (lines 362-364) increments the
error counter, and the final `return vss_signals` (line 366) sits outside
the `try`, so the dictionary accumulated before the fault is returned. -/
def convert_can_message_fault (st : ConverterState) (msg : CanMessage) (k : Nat) :
    List (String × PyValue) × ConverterState :=
  let stats1 := { st.stats with messages_received := st.stats.messages_received + 1 }
  match st.message_definitions.lookup msg.arbitration_id with
  | none => ([], { st with stats := stats1 })
  | some msg_def =>
    match st.can_to_vss_mapping.lookup msg.arbitration_id with
    | none => ([], { st with stats := stats1 })
    | some vssMap =>
      let vss_signals := processSignals msg.data vssMap (msg_def.signals.take k) []
      (vss_signals, { st with stats := { stats1 with errors := stats1.errors + 1 } })

/-- Frame ingestion buffer of `CanInterface`: `deque(maxlen=capacity)`
plus its stored frames, oldest first. -/
structure RxBuffer where
  capacity : Nat
  entries : List CanMessage
deriving DecidableEq

/-- Embedding of `_on_msg_received` (lines 23-25): `deque.append` on a
bounded deque drops entries from the left once the capacity is exceeded. -/
def pushMsg (buf : RxBuffer) (m : CanMessage) : RxBuffer :=
  let es := buf.entries ++ [m]
  { buf with
      entries := if buf.capacity < es.length then es.drop (es.length - buf.capacity) else es }

/-- Embedding of `get_latest` (lines 39-45): scan from the most recently
added frame toward the oldest, return the first one whose id matches. -/
def get_latest (buf : RxBuffer) (can_id : Nat) : Option CanMessage :=
  buf.entries.reverse.find? (fun m => m.arbitration_id == can_id)

/-- Embedding of `get_all` (lines 47-50): a copy of the stored frames in
arrival order. -/
def get_all (buf : RxBuffer) : List CanMessage :=
  buf.entries

/-- Little-endian value of a byte list as the spec words it: byte `i`
contributes its value times `256 ^ i`. -/
def leSpecValue : List Nat → Nat
  | [] => 0
  | b :: rest => b + 256 * leSpecValue rest

end CanVss

namespace CanVss

/-- Correctness of the little-endian accumulation loop: with every byte below
256, running the loop from index `i` and accumulator `v < 2 ^ (8 * i)` adds
the positionally weighted byte values on top of the accumulator. -/
theorem rawLEAux_eq_leSpec (bs : List Nat) : ∀ i v : Nat, v < 2 ^ (8 * i) →
    (∀ b ∈ bs, b < 256) → rawLEAux bs i v = v + 2 ^ (8 * i) * leSpecValue bs := by
  induction bs with
  | nil =>
    intro i v _ _
    simp [rawLEAux, leSpecValue]
  | cons b rest ih =>
    intro i v hv hb
    have hb256 : b < 256 := hb b (by simp)
    have hrest : ∀ x ∈ rest, x < 256 := fun x hx => hb x (List.mem_cons_of_mem _ hx)
    have hpow : 2 ^ (8 * (i + 1)) = 2 ^ (8 * i) * 256 := by
      rw [Nat.mul_add, Nat.pow_add]
    have hor : v ||| b <<< (i * 8) = 2 ^ (8 * i) * b + v := by
      rw [Nat.shiftLeft_eq, Nat.mul_comm i 8, Nat.mul_comm (b : Nat) (2 ^ (8 * i)),
        Nat.lor_comm, ← Nat.mul_add_lt_is_or hv b]
    have hv2 : 2 ^ (8 * i) * b + v < 2 ^ (8 * (i + 1)) := by
      calc 2 ^ (8 * i) * b + v < 2 ^ (8 * i) * b + 2 ^ (8 * i) := by omega
        _ = 2 ^ (8 * i) * (b + 1) := by ring
        _ ≤ 2 ^ (8 * i) * 256 := Nat.mul_le_mul_left _ (by omega)
        _ = 2 ^ (8 * (i + 1)) := hpow.symm
    rw [rawLEAux, hor, ih (i + 1) _ hv2 hrest, leSpecValue, hpow]
    ring

/-- The source loop starting from index 0 and accumulator 0 computes exactly
the spec's little-endian byte value. -/
theorem rawLE_eq_leSpec (bs : List Nat) (hb : ∀ b ∈ bs, b < 256) :
    rawLE bs = leSpecValue bs := by
  have h := rawLEAux_eq_leSpec bs 0 0 (by simp) hb
  simpa [rawLE] using h

/-- Pushing into a buffer of positive capacity always leaves the pushed frame
as the newest (last) stored entry. -/
theorem pushMsg_ends (buf : RxBuffer) (m : CanMessage) (h : 0 < buf.capacity) :
    ∃ l, (pushMsg buf m).entries = l ++ [m] := by
  simp only [pushMsg]
  by_cases hc : buf.capacity < (buf.entries ++ [m]).length
  · rw [if_pos hc]
    have hlen : (buf.entries ++ [m]).length = buf.entries.length + 1 := by simp
    have hle : (buf.entries ++ [m]).length - buf.capacity ≤ buf.entries.length := by omega
    exact ⟨_, List.drop_append_of_le_length hle⟩
  · rw [if_neg hc]; exact ⟨buf.entries, rfl⟩

/-- The sign test of the source (`value & (1 << (bit_length - 1))` non-zero)
coincides, for in-range field values, with the top extracted bit being set,
i.e. with `2 ^ (bit_length - 1) ≤ value`. -/
theorem and_top_bit_iff (raw bl : Nat) (hlt : raw < 2 ^ bl) (hbl : 0 < bl) :
    raw &&& 1 <<< (bl - 1) ≠ 0 ↔ 2 ^ (bl - 1) ≤ raw := by
  have hsucc : bl - 1 + 1 = bl := by omega
  have hsplit : 2 ^ bl = 2 ^ (bl - 1) * 2 := by rw [← pow_succ, hsucc]
  rw [Nat.shiftLeft_eq, one_mul, Nat.and_two_pow]
  constructor
  · intro h
    cases htb : raw.testBit (bl - 1) with
    | false => rw [htb] at h; simp at h
    | true => exact Nat.testBit_implies_ge htb
  · intro hge
    have hdiv : raw / 2 ^ (bl - 1) = 1 := by
      apply Nat.div_eq_of_lt_le (by simpa using hge)
      omega
    have htb : raw.testBit (bl - 1) = true := by
      rw [Nat.testBit_to_div_mod, hdiv]
      simp
    rw [htb]
    simpa using (Nat.two_pow_pos (bl - 1)).ne'

end CanVss

namespace CanVss

/-- C1 counterexample: a 16-bit uint16 field starting at byte 7 of an 8-byte
frame has its required byte run extend past the end of the buffer, yet
`extract_signal_from_data` does not fail: it decodes `42.0` from the single
partially available byte (missing high bytes contribute nothing). -/
theorem c1_counterexample :
    extract_signal_from_data [0, 0, 0, 0, 0, 0, 0, 0x2A]
      ⟨"T", 56, 16, .UINT16, 1, 0, none, none, "", ""⟩ = some (.pyNum 42) ∧
    extract_signal_from_data [0, 0, 0, 0, 0, 0, 0, 0x2A]
      ⟨"T", 56, 16, .UINT16, 1, 0, none, none, "", ""⟩ ≠ none := by
  constructor
  · simp [extract_signal_from_data, rawField, rawLE, rawLEAux, clampToBounds]
  · simp [extract_signal_from_data, rawField, rawLE, rawLEAux]

/-- C1 (amended): extraction fails with the error value exactly when the
covered byte run is entirely absent from the buffer; whenever at least one
covered byte is available — in particular for a field whose run extends only
partly past the end of the frame — a value is decoded from the partially
available bytes. -/
theorem c1_none_iff :
    ∀ (data : List Nat) (sd : CANSignalDefinition),
      extract_signal_from_data data sd = none ↔
        (data.drop (sd.start_bit / 8)).take ((sd.bit_length + 7) / 8) = [] := by
  intro data sd
  have h2 : extract_signal_from_data data sd = none ↔ rawField data sd = none := by
    unfold extract_signal_from_data
    cases hr : rawField data sd with
    | none => simp
    | some v => cases sd.signal_type <;> simp
  rw [h2]
  unfold rawField
  constructor
  · intro h
    by_contra hne
    revert h
    simp only [if_neg hne]
    split <;> simp
  · intro h
    simp [h]

/-- C1 witness: the amended theorem applied to a frame with no data bytes,
where the whole byte run is absent and extraction indeed fails. -/
theorem c1_witness :
    extract_signal_from_data [] ⟨"W", 0, 8, .UINT8, 1, 0, none, none, "", ""⟩ = none :=
  (c1_none_iff [] ⟨"W", 0, 8, .UINT8, 1, 0, none, none, "", ""⟩).mpr rfl

/-- C2 counterexample: with one mapped uint8 signal registered for id
`0x100`, a fault raised after the first loop iteration is caught and counted
(`errors = 1`), but the returned destination-path map is NOT empty: it holds
the entry inserted before the fault. -/
theorem c2_counterexample :
    (convert_can_message_fault
        ⟨[(0x100, ⟨0x100, "HeadlampControl", 8,
            [("HeadlampStatus", ⟨"HeadlampStatus", 0, 8, .UINT8, 1, 0, none, none, "", ""⟩)],
            0, ""⟩)],
          [(0x100, [("HeadlampStatus", "Vehicle.Body.Lights.IsHighBeamOn")])],
          ⟨0, 0, 0, 0⟩⟩
        ⟨0x100, [1, 0, 0, 0, 0, 0, 0, 0]⟩ 1).1 ≠ [] ∧
    (convert_can_message_fault
        ⟨[(0x100, ⟨0x100, "HeadlampControl", 8,
            [("HeadlampStatus", ⟨"HeadlampStatus", 0, 8, .UINT8, 1, 0, none, none, "", ""⟩)],
            0, ""⟩)],
          [(0x100, [("HeadlampStatus", "Vehicle.Body.Lights.IsHighBeamOn")])],
          ⟨0, 0, 0, 0⟩⟩
        ⟨0x100, [1, 0, 0, 0, 0, 0, 0, 0]⟩ 1).1 =
      [("Vehicle.Body.Lights.IsHighBeamOn", .pyNum 1)] ∧
    (convert_can_message_fault
        ⟨[(0x100, ⟨0x100, "HeadlampControl", 8,
            [("HeadlampStatus", ⟨"HeadlampStatus", 0, 8, .UINT8, 1, 0, none, none, "", ""⟩)],
            0, ""⟩)],
          [(0x100, [("HeadlampStatus", "Vehicle.Body.Lights.IsHighBeamOn")])],
          ⟨0, 0, 0, 0⟩⟩
        ⟨0x100, [1, 0, 0, 0, 0, 0, 0, 0]⟩ 1).2.stats.errors = 1 := by
  refine ⟨?_, ?_, ?_⟩ <;>
    simp [convert_can_message_fault, processSignals, extract_signal_from_data, rawField,
      rawLE, rawLEAux, clampToBounds, dictInsert, List.lookup]

/-- C2 (amended): an unanticipated fault raised inside the signal loop of
`convert_can_message` after `k` iterations is caught at the engine boundary
(the modelled function returns normally), the error counter and the received
counter are each incremented by one, the converted and signals-sent counters
are unchanged, and the map accumulated before the fault — possibly non-empty
— is returned; conversion never raises past this boundary. -/
theorem c2_fault_contained :
    ∀ (st : ConverterState) (msg : CanMessage) (k : Nat)
      (md : CANMessageDefinition) (vm : List (String × String)),
      st.message_definitions.lookup msg.arbitration_id = some md →
      st.can_to_vss_mapping.lookup msg.arbitration_id = some vm →
      convert_can_message_fault st msg k =
        (processSignals msg.data vm (md.signals.take k) [],
         { st with stats :=
           { st.stats with
               messages_received := st.stats.messages_received + 1,
               errors := st.stats.errors + 1 } }) := by
  intro st msg k md vm hd hm
  simp [convert_can_message_fault, hd, hm]

/-- C2 witness: the amended theorem applied to a registered id with an empty
signal list and a fault before any iteration, yielding the empty map with
the received and error counters incremented. -/
theorem c2_witness :
    convert_can_message_fault ⟨[(5, ⟨5, "M", 8, [], 0, ""⟩)], [(5, [])], ⟨0, 0, 0, 0⟩⟩
        ⟨5, []⟩ 0 =
      ([], ⟨[(5, ⟨5, "M", 8, [], 0, ""⟩)], [(5, [])], ⟨1, 0, 0, 1⟩⟩) := by
  have h := c2_fault_contained ⟨[(5, ⟨5, "M", 8, [], 0, ""⟩)], [(5, [])], ⟨0, 0, 0, 0⟩⟩
    ⟨5, []⟩ 0 ⟨5, "M", 8, [], 0, ""⟩ [] rfl rfl
  simpa using h

/-- C3: for every numeric kind (unsigned, float, and signed — where the
field value is first reinterpreted as two's-complement) with both bounds
present, extraction computes `value * scale + offset` first and clamps to
`[min, max]` only afterwards; concretely an unsigned 8-bit field holding
raw 200 with scale 1 and max 150 decodes to 150.0. -/
theorem c3_clamp_after_scale :
    (∀ (data : List Nat) (sd : CANSignalDefinition) (raw : Nat) (mn mx : ℚ),
        sd.signal_type = .UINT8 ∨ sd.signal_type = .UINT16 ∨ sd.signal_type = .UINT32 ∨
          sd.signal_type = .FLOAT →
        sd.min_val = some mn → sd.max_val = some mx →
        rawField data sd = some raw →
        extract_signal_from_data data sd =
          some (.pyNum (min (max ((raw : ℚ) * sd.scale + sd.offset) mn) mx))) ∧
    (∀ (data : List Nat) (sd : CANSignalDefinition) (raw : Nat) (mn mx : ℚ),
        sd.signal_type = .INT8 ∨ sd.signal_type = .INT16 ∨ sd.signal_type = .INT32 →
        sd.min_val = some mn → sd.max_val = some mx →
        rawField data sd = some raw →
        extract_signal_from_data data sd =
          some (.pyNum (min (max
            ((toSignedValue raw sd.bit_length : ℚ) * sd.scale + sd.offset) mn) mx))) ∧
    extract_signal_from_data [200] ⟨"S", 0, 8, .UINT8, 1, 0, none, some 150, "", ""⟩ =
      some (.pyNum 150) := by
  refine ⟨?_, ?_, ?_⟩
  · intro data sd raw mn mx hty hmin hmax hraw
    rcases hty with h | h | h | h <;>
      simp [extract_signal_from_data, hraw, h, clampToBounds, hmin, hmax]
  · intro data sd raw mn mx hty hmin hmax hraw
    rcases hty with h | h | h <;>
      simp [extract_signal_from_data, hraw, h, clampToBounds, hmin, hmax]
  · simp [extract_signal_from_data, rawField, rawLE, rawLEAux, clampToBounds]
    norm_num

/-- C3 witness: the clamp-after-scale equation instantiated at an unsigned,
a float and a signed 8-bit field holding raw 200 with bounds 0 and 150. -/
theorem c3_witness :
    (extract_signal_from_data [200] ⟨"S", 0, 8, .UINT8, 1, 0, some 0, some 150, "", ""⟩ =
      some (.pyNum (min (max ((200 : ℚ) * 1 + 0) 0) 150))) ∧
    (extract_signal_from_data [200] ⟨"F", 0, 8, .FLOAT, 1, 0, some 0, some 150, "", ""⟩ =
      some (.pyNum (min (max ((200 : ℚ) * 1 + 0) 0) 150))) ∧
    (extract_signal_from_data [200] ⟨"I", 0, 8, .INT8, 1, 0, some 0, some 150, "", ""⟩ =
      some (.pyNum (min (max ((toSignedValue 200 8 : ℚ) * 1 + 0) 0) 150))) :=
  ⟨c3_clamp_after_scale.1 [200] ⟨"S", 0, 8, .UINT8, 1, 0, some 0, some 150, "", ""⟩ 200 0 150
      (Or.inl rfl) rfl rfl (by decide),
    c3_clamp_after_scale.1 [200] ⟨"F", 0, 8, .FLOAT, 1, 0, some 0, some 150, "", ""⟩ 200 0 150
      (Or.inr (Or.inr (Or.inr rfl))) rfl rfl (by decide),
    c3_clamp_after_scale.2.1 [200] ⟨"I", 0, 8, .INT8, 1, 0, some 0, some 150, "", ""⟩ 200 0 150
      (Or.inl rfl) rfl rfl (by decide)⟩

/-- C4: signed kinds reinterpret the masked field as two's-complement within
`bit_length` bits (subtracting `2 ^ bit_length` exactly when the top
extracted bit is set) before scale and offset are applied; concretely an
8-bit signed field holding byte 0xFF decodes to -1.0 with scale 1, offset 0,
and also to -1.0 with scale 2, offset 1. -/
theorem c4_signed_twos_complement :
    (∀ (data : List Nat) (sd : CANSignalDefinition) (raw : Nat),
        sd.signal_type = .INT8 ∨ sd.signal_type = .INT16 ∨ sd.signal_type = .INT32 →
        rawField data sd = some raw →
        extract_signal_from_data data sd =
          some (.pyNum (clampToBounds sd
            ((toSignedValue raw sd.bit_length : ℚ) * sd.scale + sd.offset)))) ∧
    (∀ raw bl : Nat, raw < 2 ^ bl → 0 < bl →
        toSignedValue raw bl =
          if 2 ^ (bl - 1) ≤ raw then (raw : Int) - 2 ^ bl else (raw : Int)) ∧
    extract_signal_from_data [0xFF] ⟨"S", 0, 8, .INT8, 1, 0, none, none, "", ""⟩ =
      some (.pyNum (-1)) ∧
    extract_signal_from_data [0xFF] ⟨"S", 0, 8, .INT8, 2, 1, none, none, "", ""⟩ =
      some (.pyNum (-1)) := by
  refine ⟨?_, ?_, ?_, ?_⟩
  · intro data sd raw hty hraw
    rcases hty with h | h | h <;> simp [extract_signal_from_data, hraw, h]
  · intro raw bl hlt hbl
    have hcast : ((1 <<< bl : Nat) : Int) = 2 ^ bl := by
      rw [Nat.shiftLeft_eq, one_mul]
      push_cast
      ring
    simp only [toSignedValue, and_top_bit_iff raw bl hlt hbl, hcast]
  · simp [extract_signal_from_data, rawField, rawLE, rawLEAux, clampToBounds, toSignedValue]
  · simp [extract_signal_from_data, rawField, rawLE, rawLEAux, clampToBounds, toSignedValue]
    norm_num

/-- C4 witness: the two's-complement characterization instantiated at value
255 in an 8-bit field, giving 255 - 256. -/
theorem c4_witness : toSignedValue 255 8 = (255 : Int) - 2 ^ 8 := by
  rw [c4_signed_twos_complement.2.1 255 8 (by norm_num) (by norm_num)]
  norm_num

/-- C5: the extraction loop combines the covered bytes little-endian — byte
`i` contributes its value shifted left by `8 * i`, i.e. weighted by
`256 ^ i` — and concretely a 16-bit uint16 field at bit 0 over data bytes
[0xF4, 0x01] decodes to 500.0. -/
theorem c5_little_endian :
    (∀ bs : List Nat, (∀ b ∈ bs, b < 256) → rawLE bs = leSpecValue bs) ∧
    extract_signal_from_data [0xF4, 0x01]
      ⟨"LampPower", 0, 16, .UINT16, 1, 0, none, none, "W", ""⟩ = some (.pyNum 500) := by
  constructor
  · exact rawLE_eq_leSpec
  · simp [extract_signal_from_data, rawField, rawLE, rawLEAux, clampToBounds]

/-- C5 witness: the little-endian equation applied to the byte run
[0xF4, 0x01] of the concrete scenario. -/
theorem c5_witness : rawLE [0xF4, 0x01] = leSpecValue [0xF4, 0x01] :=
  c5_little_endian.1 [0xF4, 0x01] (by decide)

/-- C6: a frame whose id has no registered message definition or no
registered mapping yields an empty map from `convert_can_message`, with the
received counter incremented by one and every other counter (and both
registries) unchanged. -/
theorem c6_unregistered_id :
    ∀ (st : ConverterState) (msg : CanMessage),
      st.message_definitions.lookup msg.arbitration_id = none ∨
        st.can_to_vss_mapping.lookup msg.arbitration_id = none →
      convert_can_message st msg =
        ([], { st with stats :=
          { st.stats with messages_received := st.stats.messages_received + 1 } }) := by
  intro st msg h
  rcases h with h | h
  · simp [convert_can_message, h]
  · cases hd : st.message_definitions.lookup msg.arbitration_id with
    | none => simp [convert_can_message, hd]
    | some md => simp [convert_can_message, hd, h]

/-- C6 witness: converting a frame against empty registries returns the
empty map and only bumps the received counter. -/
theorem c6_witness :
    convert_can_message ⟨[], [], ⟨0, 0, 0, 0⟩⟩ ⟨5, []⟩ = ([], ⟨[], [], ⟨1, 0, 0, 0⟩⟩) :=
  c6_unregistered_id ⟨[], [], ⟨0, 0, 0, 0⟩⟩ ⟨5, []⟩ (Or.inl rfl)

/-- C7 counterexample: a signal with `bit_length = 40 > 32` is not rejected:
`extract_signal_from_data` happily decodes a value for it. -/
theorem c7_counterexample :
    extract_signal_from_data [1, 0, 0, 0, 0, 0, 0, 0]
        ⟨"Wide", 0, 40, .UINT32, 1, 0, none, none, "", ""⟩ = some (.pyNum 1) ∧
    extract_signal_from_data [1, 0, 0, 0, 0, 0, 0, 0]
        ⟨"Wide", 0, 40, .UINT32, 1, 0, none, none, "", ""⟩ ≠ none := by
  constructor <;>
    simp [extract_signal_from_data, rawField, rawLE, rawLEAux, clampToBounds]

/-- C7 (amended): a zero-length field always yields the error value, as does
a byte run lying entirely beyond the end of the buffer (and extraction is a
total function, so it never crashes); the conversion engine skips a signal
whose extraction fails and continues with the remaining signals. A
`bit_length` greater than 32, or a partially available byte run, is however
decoded normally rather than rejected. -/
theorem c7_malformed_geometry :
    (∀ (data : List Nat) (sd : CANSignalDefinition), sd.bit_length = 0 →
        extract_signal_from_data data sd = none) ∧
    (∀ (data : List Nat) (sd : CANSignalDefinition),
        data.length ≤ sd.start_bit / 8 →
        extract_signal_from_data data sd = none) ∧
    (∀ (data : List Nat) (vm : List (String × String)) (nm : String)
        (sd : CANSignalDefinition) (rest : List (String × CANSignalDefinition))
        (acc : List (String × PyValue)),
        extract_signal_from_data data sd = none →
        processSignals data vm ((nm, sd) :: rest) acc = processSignals data vm rest acc) := by
  refine ⟨?_, ?_, ?_⟩
  · intro data sd h
    simp [extract_signal_from_data, rawField, h]
  · intro data sd h
    simp [extract_signal_from_data, rawField, List.drop_eq_nil_of_le h]
  · intro data vm nm sd rest acc h
    simp [processSignals, h]

/-- C7 witness: the zero-length clause applied to a concrete signal. -/
theorem c7_witness :
    extract_signal_from_data [] ⟨"Z", 0, 0, .UINT8, 1, 0, none, none, "", ""⟩ = none :=
  c7_malformed_geometry.1 [] ⟨"Z", 0, 0, .UINT8, 1, 0, none, none, "", ""⟩ rfl

/-- C8: pushing a frame into a buffer already holding `capacity` frames
evicts exactly the oldest stored frame; the snapshot operation returns the
stored frames in arrival order; and concretely pushing frames with ids
1, 2, 3, 4 into a fresh capacity-3 buffer leaves ids [2, 3, 4] in order. -/
theorem c8_ring_eviction :
    (∀ (buf : RxBuffer) (m : CanMessage),
        0 < buf.capacity → buf.entries.length = buf.capacity →
        (pushMsg buf m).entries = buf.entries.tail ++ [m]) ∧
    (∀ buf : RxBuffer, get_all buf = buf.entries) ∧
    (get_all (pushMsg (pushMsg (pushMsg (pushMsg ⟨3, []⟩ ⟨1, []⟩) ⟨2, []⟩) ⟨3, []⟩)
        ⟨4, []⟩)).map (fun m => m.arbitration_id) = [2, 3, 4] := by
  refine ⟨?_, fun _ => rfl, by decide⟩
  intro buf m hcap hlen
  simp only [pushMsg]
  have hc : buf.capacity < (buf.entries ++ [m]).length := by
    simp only [List.length_append, List.length_singleton]
    omega
  rw [if_pos hc]
  have h1 : (buf.entries ++ [m]).length - buf.capacity = 1 := by
    simp only [List.length_append, List.length_singleton]
    omega
  rw [h1, List.drop_append_of_le_length (by omega), List.drop_one]

/-- C8 witness: the eviction equation applied to a full capacity-3 buffer
holding ids 1, 2, 3 and a pushed frame with id 4. -/
theorem c8_witness :
    (pushMsg ⟨3, [⟨1, []⟩, ⟨2, []⟩, ⟨3, []⟩]⟩ ⟨4, []⟩).entries =
      [⟨2, []⟩, ⟨3, []⟩, ⟨4, []⟩] := by
  rw [c8_ring_eviction.1 ⟨3, [⟨1, []⟩, ⟨2, []⟩, ⟨3, []⟩]⟩ ⟨4, []⟩ (by decide) (by decide)]
  rfl

/-- C9: `get_latest` returns the most recently stored frame with the given
id (the last matching element in arrival order), returns none when no
stored frame has that id, and after pushing two frames with the same id the
second one is returned. -/
theorem c9_get_latest_spec :
    (∀ (buf : RxBuffer) (can_id : Nat),
        get_latest buf can_id =
          (buf.entries.filter (fun m => m.arbitration_id == can_id)).getLast?) ∧
    (∀ (buf : RxBuffer) (can_id : Nat),
        (∀ m ∈ buf.entries, m.arbitration_id ≠ can_id) →
        get_latest buf can_id = none) ∧
    (∀ (buf : RxBuffer) (f1 f2 : CanMessage), 0 < buf.capacity →
        get_latest (pushMsg (pushMsg buf f1) f2) f2.arbitration_id = some f2) := by
  refine ⟨?_, ?_, ?_⟩
  · intro buf can_id
    show buf.entries.reverse.find? _ = _
    rw [← List.filter_head?, List.filter_reverse, List.head?_reverse]
  · intro buf can_id h
    apply List.find?_eq_none.mpr
    intro x hx
    have hne := h x (List.mem_reverse.mp hx)
    simp [hne]
  · intro buf f1 f2 hcap
    obtain ⟨l, hl⟩ := pushMsg_ends (pushMsg buf f1) f2 hcap
    unfold get_latest
    rw [hl, List.reverse_append]
    simp

/-- C9 witness: after pushing two frames with id 7, `get_latest 7` returns
the second one. -/
theorem c9_witness :
    get_latest (pushMsg (pushMsg ⟨2, []⟩ ⟨7, [1]⟩) ⟨7, [2]⟩) 7 = some ⟨7, [2]⟩ :=
  c9_get_latest_spec.2.2 ⟨2, []⟩ ⟨7, [1]⟩ ⟨7, [2]⟩ (by decide)

/-- C10: for a BOOLEAN-kind signal with a non-empty covered byte run,
extraction returns the truth value of the masked raw field (true exactly
when it is non-zero), and the scale, offset, min and max parameters of the
signal definition have no effect on the result. -/
theorem c10_boolean_kind :
    (∀ (data : List Nat) (sd : CANSignalDefinition) (raw : Nat),
        sd.signal_type = .BOOLEAN → rawField data sd = some raw →
        extract_signal_from_data data sd = some (.pyBool (raw != 0))) ∧
    (∀ (data : List Nat) (sd : CANSignalDefinition) (s o : ℚ) (mn mx : Option ℚ),
        sd.signal_type = .BOOLEAN →
        extract_signal_from_data data
            { sd with scale := s, offset := o, min_val := mn, max_val := mx } =
          extract_signal_from_data data sd) := by
  constructor
  · intro data sd raw hty hraw
    simp [extract_signal_from_data, hraw, hty]
  · intro data sd s o mn mx hty
    obtain ⟨n, sb, bl, ty, sc, off, mnv, mxv, u, d⟩ := sd
    cases hty
    rfl

/-- C10 witness: a one-bit BOOLEAN field over the byte 0x01 extracts true. -/
theorem c10_witness :
    extract_signal_from_data [1] ⟨"B", 0, 1, .BOOLEAN, 1, 0, none, none, "", ""⟩ =
      some (.pyBool ((1 : Nat) != 0)) :=
  c10_boolean_kind.1 [1] ⟨"B", 0, 1, .BOOLEAN, 1, 0, none, none, "", ""⟩ 1 rfl (by decide)

end CanVss
